import Mathlib

/-!
Verification of the Pyzard batch file-relocation engine (`Pyzard.py`).

The development shallowly embeds the engine's core: the conflict resolver
(`resolve_conflict` / `generate_copy_name`), the folder merger
(`merge_folders`), the operation journal (`save_operation_history`,
`undo_last_operation`) and the search-and-copy batch driver
(`search_and_copy_files`).

Modelling conventions:
* A filesystem is a flat association list from path strings to an entry kind
  (file or directory).  `os.path` helpers are modelled on POSIX-style
  `/`-separated path strings.
* Nondeterministic failure of `shutil.copy2` / `shutil.move` (any OS call may
  raise) is modelled by a fault oracle `Faults : Nat -> Bool` consulted at a
  running operation counter; `os.urandom`-based backup names are supplied by a
  name oracle.
* The journal file is `missing`, `malformed` (unreadable/undecodable JSON) or
  `ok` with a list of records, matching how `Pyzard.py` degrades on read.
* Timestamps (`datetime.now().isoformat()`) and the operation UUID are opaque
  string parameters.
-/

set_option maxHeartbeats 1000000
set_option linter.unusedVariables false

namespace Pyzard

/-! ### Decimal rendering of naturals (Python's `str(counter)`) -/

/-- The ten decimal digit characters; any other index is unreachable in use. -/
def digitChar (d : Nat) : Char :=
  match d with
  | 0 => '0' | 1 => '1' | 2 => '2' | 3 => '3' | 4 => '4'
  | 5 => '5' | 6 => '6' | 7 => '7' | 8 => '8' | 9 => '9'
  | _ => '*'

/-- Fuel-indexed digit expansion; `fuel > n` always suffices. -/
def decChars : Nat → Nat → List Char
  | 0, _ => []
  | fuel+1, n =>
    if n < 10 then [digitChar n]
    else decChars fuel (n / 10) ++ [digitChar (n % 10)]

/-- Standard decimal rendering of a natural number, as Python's `str`. -/
def decStr (n : Nat) : String := ⟨decChars (n + 1) n⟩

/-- Numeric value of a digit character. -/
def digitVal (c : Char) : Nat := c.toNat - 48

/-- Decimal decoding, inverse to `decChars` on its image. -/
def decodeDec (cs : List Char) : Nat := cs.foldl (fun a c => a * 10 + digitVal c) 0

/-! ### `os.path` helpers (POSIX-style, as used on `/`-separated paths) -/

/-- Split a character list at its last `/`: returns `(before, after)`,
neither containing that slash, or `none` when there is no slash. -/
def splitAtLastSlash : List Char → Option (List Char × List Char)
  | [] => none
  | c :: rest =>
    match splitAtLastSlash rest with
    | some (d, b) => some (c :: d, b)
    | none => if c = '/' then some ([], rest) else none

/-- `os.path.dirname` (simplified POSIX: no trailing-slash normalisation). -/
def dirname (p : String) : String :=
  match splitAtLastSlash p.data with
  | some (d, _) => ⟨d⟩
  | none => ""

/-- `os.path.basename`. -/
def basename (p : String) : String :=
  match splitAtLastSlash p.data with
  | some (_, b) => ⟨b⟩
  | none => p

/-- Split a filename at its last dot; leading dots never start an extension,
mirroring `os.path.splitext` (".bashrc" has no extension). -/
def splitAtLastDot : List Char → Option (List Char × List Char)
  | [] => none
  | c :: rest =>
    match splitAtLastDot rest with
    | some (a, b) => some (c :: a, b)
    | none => if c = '.' then some ([], rest) else none

/-- `os.path.splitext` applied to a bare filename. -/
def splitext (s : String) : String × String :=
  let lead := s.data.takeWhile (fun c => c = '.')
  let rest := s.data.dropWhile (fun c => c = '.')
  match splitAtLastDot rest with
  | some (a, b) => (⟨lead ++ a⟩, ⟨'.' :: b⟩)
  | none => (s, "")

/-- `os.path.join` for a dirname/basename pair (empty dirname keeps the name
relative, as `os.path.join("", n) = n`). -/
def joinPath (d n : String) : String := if d = "" then n else d ++ "/" ++ n

/-- Boolean prefix test on character lists. -/
def charsPrefix : List Char → List Char → Bool
  | [], _ => true
  | _ :: _, [] => false
  | a :: as, b :: bs => decide (a = b) && charsPrefix as bs

/-- `q` equals `p` or lies strictly below directory `p`. -/
def underPath (p q : String) : Bool :=
  decide (q = p) || charsPrefix (p.data ++ ['/']) q.data

/-- Case-insensitive string comparison, as `a.lower() == b.lower()`. -/
def lowerEq (a b : String) : Bool :=
  decide (a.data.map Char.toLower = b.data.map Char.toLower)

/-! ### Filesystem model -/

/-- Kind of a filesystem entry. -/
inductive EKind
  | file
  | dir
deriving DecidableEq

/-- A filesystem: a flat association list from paths to entry kinds. -/
abbrev FS := List (String × EKind)

/-- Kind stored at path `p`, if any. -/
def lookupKind (fs : FS) (p : String) : Option EKind :=
  match fs.find? (fun e => decide (e.1 = p)) with
  | some e => some e.2
  | none => none

/-- `os.path.exists`. -/
def pathExists (fs : FS) (p : String) : Bool := (lookupKind fs p).isSome

/-- `os.path.isdir`. -/
def isDir (fs : FS) (p : String) : Bool := decide (lookupKind fs p = some EKind.dir)

/-- `os.path.isfile`. -/
def isFile (fs : FS) (p : String) : Bool := decide (lookupKind fs p = some EKind.file)

/-- Create or overwrite the entry at `p`. -/
def setEntry (fs : FS) (p : String) (k : EKind) : FS :=
  fs.filter (fun e => !(decide (e.1 = p))) ++ [(p, k)]

/-- `os.makedirs(p, exist_ok=True)`, simplified: records only `p` itself
(intermediate parents are not materialised; no claim depends on them).
`makedirs("")` is a no-op, never exercised by the claims. -/
def makedirs (fs : FS) (p : String) : FS :=
  if p = "" then fs
  else if pathExists fs p then fs else fs ++ [(p, EKind.dir)]

/-- All entries at or below `p`. -/
def subtreeEntries (fs : FS) (p : String) : FS :=
  fs.filter (fun e => underPath p e.1)

/-- Rename the subtree prefix `src` of `q` to `dst`. -/
def rebasePath (src dst q : String) : String := ⟨dst.data ++ q.data.drop src.data.length⟩

/-- `shutil.move`: relocate the entry (and, for directories, its subtree)
from `src` to `dst`, replacing anything previously at `dst`. -/
def fsMove (fs : FS) (src dst : String) : FS :=
  let moved := (subtreeEntries fs src).map (fun e => (rebasePath src dst e.1, e.2))
  (fs.filter (fun e => !(underPath src e.1) && !(underPath dst e.1))) ++ moved

/-- `shutil.rmtree` / recursive delete of a directory subtree. -/
def rmtree (fs : FS) (p : String) : FS :=
  fs.filter (fun e => !(underPath p e.1))

/-- `os.remove` of a single file entry. -/
def removeFile (fs : FS) (p : String) : FS :=
  fs.filter (fun e => !(decide (e.1 = p)))

/-- Delete `p`: `os.remove` for files, `shutil.rmtree` for directories
(the dispatch performed at the undo call sites). -/
def fsDelete (fs : FS) (p : String) : FS :=
  if isFile fs p then removeFile fs p
  else if isDir fs p then rmtree fs p
  else fs

/-- `shutil.copytree`: duplicate the subtree at `src` under `dst`. -/
def copytree (fs : FS) (src dst : String) : FS :=
  fs ++ (subtreeEntries fs src).map (fun e => (rebasePath src dst e.1, e.2))

/-! ### Conflict resolver (`generate_copy_name`, `resolve_conflict`) -/

/-- The default conflict mode of `Pyzard.py`. -/
def DEFAULT_CONFLICT_MODE : String := "copy"

/-- The `n`-th candidate produced by `generate_copy_name`:
`join(dirname(p), stem + "_副本" + str(n) + ext)` where
`(stem, ext) = splitext(basename(p))`. -/
def copyCandidate (original : String) (n : Nat) : String :=
  let d := dirname original
  let se := splitext (basename original)
  joinPath d (se.1 ++ "_副本" ++ decStr n ++ se.2)

/-- The `while True` probe loop of `generate_copy_name`, made total with
explicit fuel; `fs.length + 1` fuel always suffices (pigeonhole, proved in
`exists_copyCandidate_free`). -/
def genCopyLoop (fs : FS) (original : String) : Nat → Nat → Option String
  | 0, _ => none
  | fuel+1, n =>
    if pathExists fs (copyCandidate original n) then genCopyLoop fs original fuel (n + 1)
    else some (copyCandidate original n)

/-- `generate_copy_name`: the first candidate `<stem>_副本<N><ext>`, probing
`N = 1, 2, ...`, whose path does not exist.  The `getD` default is
unreachable (the loop always returns within `fs.length + 1` probes). -/
def generate_copy_name (fs : FS) (original : String) : String :=
  (genCopyLoop fs original (fs.length + 1) 1).getD original

/-- `resolve_conflict`: decide the final destination for one item.
`none` encodes Python's `None` (caller must skip).  The mode is the raw
string the code compares against; unrecognised modes fall to the final
`else`, which creates a copy. -/
def resolve_conflict (fs : FS) (source_path target_path : String)
    (conflict_mode : String) (is_folder : Bool) : Option String :=
  if pathExists fs target_path = false then some target_path
  else if conflict_mode = "skip" then none
  else if conflict_mode = "overwrite" then some target_path
  else if conflict_mode = "copy" then some (generate_copy_name fs target_path)
  else if conflict_mode = "merge" ∧ is_folder = true then some target_path
  else some (generate_copy_name fs target_path)

/-! ### Effect-traced resolver (for the frame property C8)

Every `os.path.exists` call the resolver makes is recorded as a `probe`
event; `mutation` is the event any state-changing filesystem call would
record (the resolver makes none).  The traced functions also thread the
filesystem value through, so that "the resolver leaves the filesystem
unchanged" is a statement, not a typing artefact. -/

/-- One observable filesystem interaction. -/
inductive FsEff
  | probe (p : String)
  | mutation (p : String)
deriving DecidableEq

/-- Is this event a pure existence check? -/
def FsEff.isProbe : FsEff → Bool
  | probe _ => true
  | mutation _ => false

/-- Traced version of `genCopyLoop`. -/
def genCopyLoopT (original : String) : Nat → Nat → FS → List FsEff →
    Option String × FS × List FsEff
  | 0, _, fs, tr => (none, fs, tr)
  | fuel+1, n, fs, tr =>
    let tr1 := tr ++ [FsEff.probe (copyCandidate original n)]
    if pathExists fs (copyCandidate original n) then genCopyLoopT original fuel (n + 1) fs tr1
    else (some (copyCandidate original n), fs, tr1)

/-- Traced version of `generate_copy_name`. -/
def generate_copy_nameT (fs : FS) (original : String) (tr : List FsEff) :
    String × FS × List FsEff :=
  ((genCopyLoopT original (fs.length + 1) 1 fs tr).1.getD original,
   (genCopyLoopT original (fs.length + 1) 1 fs tr).2)

/-- Traced version of `resolve_conflict`, recording each filesystem
interaction of the source function in order. -/
def resolve_conflictT (fs : FS) (source_path target_path : String)
    (conflict_mode : String) (is_folder : Bool) :
    Option String × FS × List FsEff :=
  let tr0 : List FsEff := [FsEff.probe target_path]
  if pathExists fs target_path = false then (some target_path, fs, tr0)
  else if conflict_mode = "skip" then (none, fs, tr0)
  else if conflict_mode = "overwrite" then (some target_path, fs, tr0)
  else if conflict_mode = "copy" then
    (some (generate_copy_nameT fs target_path tr0).1, (generate_copy_nameT fs target_path tr0).2)
  else if conflict_mode = "merge" ∧ is_folder = true then (some target_path, fs, tr0)
  else
    (some (generate_copy_nameT fs target_path tr0).1, (generate_copy_nameT fs target_path tr0).2)

/-! ### Folder merger (`merge_folders`)

Faults: any `shutil.copy2` / `shutil.copytree` call may raise; the oracle
`Faults`, consulted at a running operation counter, decides which calls do.
Recursion carries explicit fuel (the Python recursion terminates because the
directory tree is finite); `MErr.fuelOut` marks fuel exhaustion and is
distinct from a propagated exception `MErr.fault`. -/

/-- Fault oracle: `faults i = true` means the `i`-th fallible OS call raises. -/
abbrev Faults := Nat → Bool

/-- Merge state: the filesystem plus the fallible-call counter. -/
structure MSt where
  fs : FS
  opIdx : Nat
deriving DecidableEq

/-- Outcome of a failed merge: a propagated exception or fuel exhaustion. -/
inductive MErr
  | fault (i : Nat)
  | fuelOut
deriving DecidableEq

/-- `os.listdir`: names of the immediate children of directory `p`
(order: filesystem list order; duplicates collapsed). -/
def listdir (fs : FS) (p : String) : List String :=
  ((fs.filter (fun e => decide (dirname e.1 = p))).map (fun e => basename e.1)).eraseDups

/-- The body of `merge_folders`, iterating over a fixed item list.  Each
recursive call (into a subdirectory, or onto the remaining items) consumes
one unit of fuel. -/
def mergeGo (faults : Faults) : Nat → MSt → String → String → List String →
    MSt × Option MErr
  | 0, st, _, _, _ => (st, some MErr.fuelOut)
  | _+1, st, _, _, [] => (st, none)
  | fuel+1, st, src, tgt, name :: rest =>
    if isDir st.fs (joinPath src name) then
      if pathExists st.fs (joinPath tgt name) = false then
        if faults st.opIdx then ({ st with opIdx := st.opIdx + 1 }, some (MErr.fault st.opIdx))
        else
          mergeGo faults fuel
            ⟨copytree st.fs (joinPath src name) (joinPath tgt name), st.opIdx + 1⟩
            src tgt rest
      else
        match mergeGo faults fuel st (joinPath src name) (joinPath tgt name)
            (listdir st.fs (joinPath src name)) with
        | (st1, some e) => (st1, some e)
        | (st1, none) => mergeGo faults fuel st1 src tgt rest
    else
      if pathExists st.fs (joinPath tgt name) = false then
        if faults st.opIdx then ({ st with opIdx := st.opIdx + 1 }, some (MErr.fault st.opIdx))
        else
          mergeGo faults fuel
            ⟨setEntry st.fs (joinPath tgt name) EKind.file, st.opIdx + 1⟩ src tgt rest
      else
        if faults st.opIdx then ({ st with opIdx := st.opIdx + 1 }, some (MErr.fault st.opIdx))
        else
          mergeGo faults fuel
            ⟨setEntry st.fs (generate_copy_name st.fs (joinPath tgt name)) EKind.file,
              st.opIdx + 1⟩ src tgt rest

/-- `merge_folders(source_folder, target_folder)`: union the source
directory's content into the target, recursing on common subdirectories;
a conflicting file is copied to a `generate_copy_name` sibling.  Any
exception aborts the merge and propagates (the `except` clause re-raises). -/
def merge_folders (faults : Faults) (fuel : Nat) (st : MSt)
    (source_folder target_folder : String) : MSt × Option MErr :=
  mergeGo faults fuel st source_folder target_folder (listdir st.fs source_folder)

/-! ### Operation journal (`save_operation_history`) -/

/-- One persisted operation record (`operation_record` in
`save_operation_history`; `undo_timestamp` is absent until undo sets it). -/
structure Record where
  id : String
  type : String
  source_paths : List String
  target_paths : List String
  backup_paths : List String
  timestamp : String
  status : String
  success : Bool
  error_message : Option String
  undo_timestamp : Option String
deriving DecidableEq

/-- The journal file `.operation_history.json`: absent, unreadable/
malformed, or a parsed list of records. -/
inductive JournalFile
  | missing
  | malformed
  | ok (recs : List Record)
deriving DecidableEq

/-- Records read from the journal; a missing or malformed file reads as the
empty history (the `except: history = []` fallback). -/
def journalRecs : JournalFile → List Record
  | JournalFile.ok h => h
  | _ => []

/-- `save_operation_history`: read the history (malformed/missing ⇒ empty),
append one record and rewrite the file.  Returns the record and the new
journal.  The driver always passes an explicit `operation_id`; `now` stands
for `datetime.now().isoformat()`. -/
def save_operation_history (operation_type : String)
    (source_paths target_paths : List String) (backup_paths : Option (List String))
    (operation_id : String) (success : Bool) (error_message : Option String)
    (now : String) (j : JournalFile) : Record × JournalFile :=
  let history := journalRecs j
  let record : Record :=
    { id := operation_id
      type := operation_type
      source_paths := source_paths
      target_paths := target_paths
      backup_paths := backup_paths.getD []
      timestamp := now
      status := if success then "completed" else "failed"
      success := success
      error_message := error_message
      undo_timestamp := none }
  (record, JournalFile.ok (history ++ [record]))

/-! ### Undo (`undo_last_operation`)

The undo scan and its per-index restore steps.  The deterministic
filesystem model makes each guarded OS call succeed when its precondition
(existence) holds, which is exactly when the code's per-index `try` body
runs to completion. -/

/-- Index of the newest record with `status == "completed"` — the record
`for op in reversed(history)` stops at. -/
def lastCompletedIdx : List Record → Option Nat
  | [] => none
  | r :: rs =>
    match lastCompletedIdx rs with
    | some k => some (k + 1)
    | none => if r.status = "completed" then some 0 else none

/-- The in-place mutation undo performs on the record it acted on. -/
def markUndone (r : Record) (now : String) : Record :=
  { r with status := "undone", undo_timestamp := some now }

/-- One per-index restore step of a Cut/Rename undo: if the backup exists,
recreate the source's parent, move the backup back, and delete the target
when it still exists at a different path.  A missing backup, or a missing
`source_paths[i]` (an `IndexError` swallowed by the per-index `except`),
counts as a failed index and leaves the filesystem unchanged. -/
def undoCutIndex (fs : FS) (source_paths : List String) (i : Nat)
    (bkp tgt : String) : FS × Bool :=
  if pathExists fs bkp then
    match source_paths[i]? with
    | none => (fs, false)
    | some src =>
      let fs1 := makedirs fs (dirname src)
      let fs2 := fsMove fs1 bkp src
      let fs3 := if pathExists fs2 tgt ∧ ¬ (tgt = src) then fsDelete fs2 tgt else fs2
      (fs3, true)
  else (fs, false)

/-- The Cut/Rename restore loop over `zip(backup_paths, target_paths)`,
returning the final filesystem and `success_count`. -/
def undoCutSteps (source_paths : List String) : FS → Nat → List (String × String) →
    FS × Nat
  | fs, _, [] => (fs, 0)
  | fs, i, (bkp, tgt) :: rest =>
    let p := undoCutIndex fs source_paths i bkp tgt
    let q := undoCutSteps source_paths p.1 (i + 1) rest
    (q.1, (if p.2 then 1 else 0) + q.2)

/-- The Copy undo loop: delete each still-existing target path. -/
def undoCopySteps : FS → List String → FS × Nat
  | fs, [] => (fs, 0)
  | fs, tgt :: rest =>
    if pathExists fs tgt then
      let q := undoCopySteps (fsDelete fs tgt) rest
      (q.1, q.2 + 1)
    else undoCopySteps fs rest

/-- Dispatch of the undo body on the record's type.  Returns the filesystem
after the restore steps, the `success_count`, and whether the body bailed
out with `return False` (a known type whose `success_count` stayed `0`).
A record of unknown type runs no steps and falls through to the status
update, as in the source. -/
def undoApply (fs : FS) (r : Record) : FS × Nat × Bool :=
  if r.type = "剪切" then
    let p := undoCutSteps r.source_paths fs 0 (r.backup_paths.zip r.target_paths)
    (p.1, p.2, decide (p.2 = 0))
  else if r.type = "复制" then
    let p := undoCopySteps fs r.target_paths
    (p.1, p.2, decide (p.2 = 0))
  else if r.type = "重命名" then
    let p := undoCutSteps r.source_paths fs 0 (r.backup_paths.zip r.target_paths)
    (p.1, p.2, decide (p.2 = 0))
  else (fs, 0, false)

/-- Result of one `undo_last_operation()` call. -/
structure UndoResult where
  ret : Bool
  journal : JournalFile
  fs : FS
deriving DecidableEq

/-- `undo_last_operation()`: find the newest `completed` record, run its
restore steps, and — unless a known-type record had zero successful
indices — mark it `undone`, set `undo_timestamp`, rewrite the journal and
return `True`. -/
def undo_last_operation (now : String) (j : JournalFile) (fs : FS) : UndoResult :=
  match j with
  | JournalFile.missing => ⟨false, j, fs⟩
  | JournalFile.malformed => ⟨false, j, fs⟩
  | JournalFile.ok history =>
    if history = [] then ⟨false, j, fs⟩
    else
      match lastCompletedIdx history with
      | none => ⟨false, j, fs⟩
      | some i =>
        match history[i]? with
        | none => ⟨false, j, fs⟩
        | some r =>
          let a := undoApply fs r
          if a.2.2 then ⟨false, j, a.1⟩
          else ⟨true, JournalFile.ok (history.set i (markUndone r now)), a.1⟩

/-! ### Search-and-copy batch driver (`search_and_copy_files`)

The CSV layer (`read_csv_with_encoding_detection`) is an external
collaborator per the manifest contract; the driver receives the decoded
`(source_name, target_name)` rows, or `none` when the CSV file is missing
or unreadable (both raise `FileNotFoundError` in the source).  `os.walk`
matching is modelled by filtering the flat filesystem in list order, which
fixes one traversal order. -/

/-- Mutable driver state: filesystem, the three journal arrays being built,
and the fault / backup-name counters. -/
structure DrvState where
  fs : FS
  copied : List String
  sources : List String
  backups : List String
  opIdx : Nat
  bkpIdx : Nat
deriving DecidableEq

/-- `shutil.copy2` under the fault oracle: on fault the call raises and the
filesystem is unchanged; otherwise the destination entry is written. -/
def shutilCopy2 (faults : Faults) (st : DrvState) (src dst : String) : DrvState × Bool :=
  if faults st.opIdx then ({ st with opIdx := st.opIdx + 1 }, false)
  else ({ st with
            fs := setEntry st.fs dst ((lookupKind st.fs src).getD EKind.file)
            opIdx := st.opIdx + 1 }, true)

/-- `shutil.move` under the fault oracle. -/
def shutilMove (faults : Faults) (st : DrvState) (src dst : String) : DrvState × Bool :=
  if faults st.opIdx then ({ st with opIdx := st.opIdx + 1 }, false)
  else ({ st with fs := fsMove st.fs src dst, opIdx := st.opIdx + 1 }, true)

/-- All files below `source` whose base name equals `file_name`
case-insensitively, in traversal order — the matches the
`for root, dirs, files in os.walk(source)` scan visits. -/
def walkMatches (fs : FS) (source : String) (file_name : String) : List String :=
  (fs.filter (fun e =>
    decide (e.2 = EKind.file) && charsPrefix (source.data ++ ['/']) e.1.data
      && lowerEq (basename e.1) file_name)).map (fun e => e.1)

/-- `os.makedirs(os.path.dirname(dest_file), exist_ok=True)` before the
conflict check. -/
def stAfterDestDir (st0 : DrvState) (dest_file : String) : DrvState :=
  { st0 with fs := makedirs st0.fs (dirname dest_file) }

/-- The `except` clause of a failed cut move: restore the backup if it still
exists (the restore's own `shutil.move` may itself raise, which is caught),
then re-raise the original error. -/
def cutRestore (faults : Faults) (m1 : DrvState) (temp_backup source_file : String) :
    DrvState × Option String × Bool :=
  if pathExists m1.fs temp_backup then
    ((shutilMove faults m1 temp_backup source_file).1, some "move failed", true)
  else (m1, some "move failed", true)

/-- Step 2 of a cut item: move the source to the resolved destination; on
failure restore and re-raise, on success record the copied path. -/
def cutMove (faults : Faults) (st3 : DrvState) (source_file resolved temp_backup : String) :
    DrvState × Option String × Bool :=
  match shutilMove faults st3 source_file resolved with
  | (m1, false) => cutRestore faults m1 temp_backup source_file
  | (m1, true) => ({ m1 with copied := m1.copied ++ [resolved] }, none, true)

/-- Step 1 of a cut item: back the source up; a backup failure re-raises
with nothing appended, a success appends `backup_paths` and `source_paths`
before the move. -/
def cutBackup (faults : Faults) (st1 : DrvState) (source_file resolved temp_backup : String) :
    DrvState × Option String × Bool :=
  match shutilCopy2 faults st1 source_file temp_backup with
  | (c1, false) => (c1, some "backup copy failed", true)
  | (c1, true) =>
    cutMove faults
      { c1 with backups := c1.backups ++ [temp_backup],
                sources := c1.sources ++ [source_file] }
      source_file resolved temp_backup

/-- The cut-mode branch for one match (backup, then move), after the
re-check that the source file still exists (`continue` otherwise). -/
def cutTransfer (faults : Faults) (temp_backup : String) (st1 : DrvState)
    (source_file resolved : String) : DrvState × Option String × Bool :=
  if pathExists st1.fs source_file = false then (st1, none, false)
  else cutBackup faults st1 source_file resolved temp_backup

/-- The copy-mode branch for one match: ensure the (possibly re-resolved)
destination directory exists, `shutil.copy2`, and append the journal
arrays on success. -/
def copyTransfer (faults : Faults) (dest_file : String) (st : DrvState)
    (source_file resolved : String) : DrvState × Option String × Bool :=
  match
    shutilCopy2 faults
      (if ¬ (resolved = dest_file) then { st with fs := makedirs st.fs (dirname resolved) }
       else st)
      source_file resolved with
  | (c1, false) => (c1, some "copy failed", true)
  | (c1, true) =>
    ({ c1 with copied := c1.copied ++ [resolved], sources := c1.sources ++ [source_file] },
      none, true)

/-- Process one walk match for one manifest row.  Returns the new state, a
raised exception (aborts the whole batch), and whether the row is done
(`found = True; break`) — `false` means the inner loop `continue`s to the
next match (skip outcome, or vanished source file). -/
def processMatch (faults : Faults) (bkpName : Nat → String) (cut_mode : Bool)
    (conflict_mode target target_name : String) (st0 : DrvState)
    (source_file : String) : DrvState × Option String × Bool :=
  match resolve_conflict (stAfterDestDir st0 (joinPath target target_name)).fs source_file
      (joinPath target target_name) conflict_mode false with
  | none => (stAfterDestDir st0 (joinPath target target_name), none, false)
  | some resolved =>
    if cut_mode then
      cutTransfer faults
        (joinPath ".temp_backup"
          ("backup_" ++ basename source_file ++ "_"
            ++ bkpName (stAfterDestDir st0 (joinPath target target_name)).bkpIdx))
        { stAfterDestDir st0 (joinPath target target_name) with
            bkpIdx := (stAfterDestDir st0 (joinPath target target_name)).bkpIdx + 1 }
        source_file resolved
    else
      copyTransfer faults (joinPath target target_name)
        (stAfterDestDir st0 (joinPath target target_name)) source_file resolved

/-- The inner `for root ... for file ...` scan for one row: try each match
until one is processed (`found`) or an exception propagates. -/
def processRow (faults : Faults) (bkpName : Nat → String) (cut_mode : Bool)
    (conflict_mode target target_name : String) :
    DrvState → List String → DrvState × Option String
  | st, [] => (st, none)
  | st, m :: rest =>
    match processMatch faults bkpName cut_mode conflict_mode target target_name st m with
    | (st1, some e, _) => (st1, some e)
    | (st1, none, true) => (st1, none)
    | (st1, none, false) =>
      processRow faults bkpName cut_mode conflict_mode target target_name st1 rest

/-- The outer loop over manifest rows. -/
def processRows (faults : Faults) (bkpName : Nat → String) (cut_mode : Bool)
    (conflict_mode source target : String) :
    DrvState → List (String × String) → DrvState × Option String
  | st, [] => (st, none)
  | st, (file_name, target_name) :: rest =>
    match processRow faults bkpName cut_mode conflict_mode target target_name st
        (walkMatches st.fs source file_name) with
    | (st1, some e) => (st1, some e)
    | (st1, none) => processRows faults bkpName cut_mode conflict_mode source target st1 rest

/-- The `try` body of `search_and_copy_files`: validate the source tree,
create the target directory if needed, require a readable CSV, create the
backup staging directory, then run the row loop.  The second component is
the raised exception, if any. -/
def driverBody (faults : Faults) (bkpName : Nat → String) (fs : FS)
    (source target : String) (csv : Option (List (String × String)))
    (cut_mode : Bool) (conflict_mode : String) : DrvState × Option String :=
  if pathExists fs source = false then (⟨fs, [], [], [], 0, 0⟩, some "源目录不存在")
  else
    match csv with
    | none =>
      (⟨(if pathExists fs target then fs else makedirs fs target), [], [], [], 0, 0⟩,
        some "CSV文件不存在")
    | some rows =>
      processRows faults bkpName cut_mode conflict_mode source target
        ⟨makedirs (if pathExists fs target then fs else makedirs fs target) ".temp_backup",
          [], [], [], 0, 0⟩ rows

/-- Result of one `search_and_copy_files` batch call. -/
structure DrvResult where
  ret : List String
  fs : FS
  record : Record
  journal : JournalFile
  success : Bool
deriving DecidableEq

/-- `search_and_copy_files(source, target, csv_file, cut_mode, conflict_mode)`:
validate inputs, walk-and-transfer each row, and — in the `finally` block,
run exactly once whatever happened — persist one operation record. -/
def search_and_copy_files (faults : Faults) (bkpName : Nat → String)
    (now operation_id : String) (fs : FS) (source target : String)
    (csv : Option (List (String × String))) (cut_mode : Bool)
    (conflict_mode0 : Option String) (journal : JournalFile) : DrvResult :=
  ⟨(driverBody faults bkpName fs source target csv cut_mode
      (conflict_mode0.getD DEFAULT_CONFLICT_MODE)).1.copied,
   (driverBody faults bkpName fs source target csv cut_mode
      (conflict_mode0.getD DEFAULT_CONFLICT_MODE)).1.fs,
   (save_operation_history (if cut_mode then "剪切" else "复制")
      (driverBody faults bkpName fs source target csv cut_mode
        (conflict_mode0.getD DEFAULT_CONFLICT_MODE)).1.sources
      (driverBody faults bkpName fs source target csv cut_mode
        (conflict_mode0.getD DEFAULT_CONFLICT_MODE)).1.copied
      (if cut_mode then
        some (driverBody faults bkpName fs source target csv cut_mode
          (conflict_mode0.getD DEFAULT_CONFLICT_MODE)).1.backups
       else none)
      operation_id
      (driverBody faults bkpName fs source target csv cut_mode
        (conflict_mode0.getD DEFAULT_CONFLICT_MODE)).2.isNone
      (driverBody faults bkpName fs source target csv cut_mode
        (conflict_mode0.getD DEFAULT_CONFLICT_MODE)).2
      now journal).1,
   (save_operation_history (if cut_mode then "剪切" else "复制")
      (driverBody faults bkpName fs source target csv cut_mode
        (conflict_mode0.getD DEFAULT_CONFLICT_MODE)).1.sources
      (driverBody faults bkpName fs source target csv cut_mode
        (conflict_mode0.getD DEFAULT_CONFLICT_MODE)).1.copied
      (if cut_mode then
        some (driverBody faults bkpName fs source target csv cut_mode
          (conflict_mode0.getD DEFAULT_CONFLICT_MODE)).1.backups
       else none)
      operation_id
      (driverBody faults bkpName fs source target csv cut_mode
        (conflict_mode0.getD DEFAULT_CONFLICT_MODE)).2.isNone
      (driverBody faults bkpName fs source target csv cut_mode
        (conflict_mode0.getD DEFAULT_CONFLICT_MODE)).2
      now journal).2,
   (driverBody faults bkpName fs source target csv cut_mode
      (conflict_mode0.getD DEFAULT_CONFLICT_MODE)).2.isNone⟩

/-! ## Helper lemmas: decimal rendering and the copy-name probe -/

theorem digitVal_digitChar (d : Nat) (h : d < 10) : digitVal (digitChar d) = d := by
  interval_cases d <;> decide

theorem decode_decChars : ∀ (fuel n : Nat), n < fuel → decodeDec (decChars fuel n) = n := by
  intro fuel
  induction fuel with
  | zero => intro n h; omega
  | succ f ih =>
    intro n h
    by_cases h10 : n < 10
    · have he : decChars (f + 1) n = [digitChar n] := by simp [decChars, h10]
      rw [he]
      have hv := digitVal_digitChar n h10
      simp [decodeDec, hv]
    · have he : decChars (f + 1) n = decChars f (n / 10) ++ [digitChar (n % 10)] := by
        simp [decChars, h10]
      rw [he]
      have hdiv : n / 10 < n := Nat.div_lt_self (by omega) (by omega)
      have ihd := ih (n / 10) (by omega)
      have hv := digitVal_digitChar (n % 10) (Nat.mod_lt _ (by omega))
      have hsplit : decodeDec (decChars f (n / 10) ++ [digitChar (n % 10)])
          = decodeDec (decChars f (n / 10)) * 10 + digitVal (digitChar (n % 10)) := by
        simp [decodeDec, List.foldl_append]
      rw [hsplit, ihd, hv]
      omega

theorem decStr_inj {a b : Nat} (h : decStr a = decStr b) : a = b := by
  have hd : decChars (a + 1) a = decChars (b + 1) b := congrArg String.data h
  have hv := congrArg decodeDec hd
  rwa [decode_decChars (a + 1) a (by omega), decode_decChars (b + 1) b (by omega)] at hv

theorem joinPath_inj_right {d x y : String} (h : joinPath d x = joinPath d y) : x = y := by
  unfold joinPath at h
  by_cases hd : d = ""
  · simpa [hd] using h
  · rw [if_neg hd, if_neg hd] at h
    have h2 := congrArg String.data h
    simp only [String.data_append, List.append_assoc] at h2
    exact String.ext ((List.append_right_inj _).mp ((List.append_right_inj _).mp h2))

theorem copyCandidate_inj (t : String) {a b : Nat} (h : copyCandidate t a = copyCandidate t b) :
    a = b := by
  unfold copyCandidate at h
  have h1 := joinPath_inj_right h
  have h2 := congrArg String.data h1
  simp only [String.data_append, List.append_assoc] at h2
  have h3 := (List.append_right_inj _).mp ((List.append_right_inj _).mp h2)
  have h4 := (List.append_left_inj _).mp h3
  exact decStr_inj (String.ext h4)

theorem pathExists_iff_mem {fs : FS} {p : String} :
    pathExists fs p = true ↔ p ∈ fs.map Prod.fst := by
  have h1 : pathExists fs p = (fs.find? (fun e => decide (e.1 = p))).isSome := by
    unfold pathExists lookupKind
    rcases hf : fs.find? (fun e => decide (e.1 = p)) with _ | e <;> simp [hf]
  rw [h1]
  simp [List.find?_isSome, List.mem_map]

theorem exists_copyCandidate_free (fs : FS) (t : String) :
    ∃ k, k < fs.length + 1 ∧ pathExists fs (copyCandidate t (1 + k)) = false := by
  by_contra hc
  push_neg at hc
  have hmem : ∀ k, k < fs.length + 1 → copyCandidate t (1 + k) ∈ fs.map Prod.fst := by
    intro k hk
    have hne := hc k hk
    have hb : pathExists fs (copyCandidate t (1 + k)) = true := by
      cases hx : pathExists fs (copyCandidate t (1 + k)) with
      | false => exact absurd hx hne
      | true => rfl
    exact pathExists_iff_mem.mp hb
  classical
  have hinj : Function.Injective (fun k : Nat => copyCandidate t (1 + k)) := by
    intro a b hab
    have := copyCandidate_inj t hab
    omega
  have hsub : (Finset.range (fs.length + 1)).image (fun k => copyCandidate t (1 + k))
      ⊆ (fs.map Prod.fst).toFinset := by
    intro x hx
    rcases Finset.mem_image.mp hx with ⟨k, hk, rfl⟩
    exact List.mem_toFinset.mpr (hmem k (Finset.mem_range.mp hk))
  have hcard := Finset.card_le_card hsub
  rw [Finset.card_image_of_injective _ hinj, Finset.card_range] at hcard
  have hle := (fs.map Prod.fst).toFinset_card_le
  have hlen : (fs.map Prod.fst).length = fs.length := by simp
  omega

theorem genCopyLoop_spec (fs : FS) (t : String) :
    ∀ fuel start, (∃ k, k < fuel ∧ pathExists fs (copyCandidate t (start + k)) = false) →
      ∃ k, k < fuel ∧
        genCopyLoop fs t fuel start = some (copyCandidate t (start + k)) ∧
        pathExists fs (copyCandidate t (start + k)) = false ∧
        ∀ j, j < k → pathExists fs (copyCandidate t (start + j)) = true := by
  intro fuel
  induction fuel with
  | zero => intro start h; rcases h with ⟨k, hk, _⟩; omega
  | succ f ih =>
    intro start h
    by_cases hb : pathExists fs (copyCandidate t start) = true
    · have hstep : genCopyLoop fs t (f + 1) start = genCopyLoop fs t f (start + 1) := by
        simp [genCopyLoop, hb]
      rcases h with ⟨k, hk, hfree⟩
      have hk0 : k ≠ 0 := by
        intro h0
        subst h0
        rw [Nat.add_zero, hb] at hfree
        exact absurd hfree (by simp)
      rcases Nat.exists_eq_succ_of_ne_zero hk0 with ⟨k', rfl⟩
      have hex : ∃ m, m < f ∧ pathExists fs (copyCandidate t (start + 1 + m)) = false := by
        refine ⟨k', by omega, ?_⟩
        have harg : start + 1 + k' = start + (k' + 1) := by omega
        rw [harg]; exact hfree
      rcases ih (start + 1) hex with ⟨m, hm, heq, hfree2, hmin⟩
      refine ⟨m + 1, by omega, ?_, ?_, ?_⟩
      · have harg : start + (m + 1) = start + 1 + m := by omega
        rw [hstep, harg]; exact heq
      · have harg : start + (m + 1) = start + 1 + m := by omega
        rw [harg]; exact hfree2
      · intro j hj
        cases j with
        | zero => rw [Nat.add_zero]; exact hb
        | succ j' =>
          have harg : start + (j' + 1) = start + 1 + j' := by omega
          rw [harg]; exact hmin j' (by omega)
    · have hfree : pathExists fs (copyCandidate t start) = false := by
        cases hx : pathExists fs (copyCandidate t start) with
        | false => rfl
        | true => exact absurd hx hb
      refine ⟨0, by omega, ?_, ?_, ?_⟩
      · rw [Nat.add_zero]; simp [genCopyLoop, hfree]
      · rw [Nat.add_zero]; exact hfree
      · intro j hj; omega

theorem generate_copy_name_spec (fs : FS) (t : String) :
    ∃ N, 1 ≤ N ∧ generate_copy_name fs t = copyCandidate t N ∧
      pathExists fs (copyCandidate t N) = false ∧
      ∀ m, 1 ≤ m → m < N → pathExists fs (copyCandidate t m) = true := by
  rcases exists_copyCandidate_free fs t with ⟨k, hk, hfree⟩
  rcases genCopyLoop_spec fs t (fs.length + 1) 1 ⟨k, hk, hfree⟩ with ⟨m, hm, heq, hfree2, hmin⟩
  refine ⟨1 + m, by omega, ?_, hfree2, ?_⟩
  · unfold generate_copy_name
    rw [heq]
    rfl
  · intro j h1 hj
    have harg : j = 1 + (j - 1) := by omega
    rw [harg]
    exact hmin (j - 1) (by omega)

theorem generate_copy_name_fresh (fs : FS) (t : String) :
    pathExists fs (generate_copy_name fs t) = false := by
  rcases generate_copy_name_spec fs t with ⟨N, _, h2, h3, _⟩
  rw [h2]; exact h3

theorem all_isProbe_probes (ps : List String) :
    (ps.map FsEff.probe).all FsEff.isProbe = true := by
  induction ps with
  | nil => rfl
  | cons a l ih => simp [FsEff.isProbe, ih]

theorem genCopyLoopT_spec (t : String) (fs : FS) :
    ∀ fuel n tr, (genCopyLoopT t fuel n fs tr).1 = genCopyLoop fs t fuel n ∧
      (genCopyLoopT t fuel n fs tr).2.1 = fs ∧
      ∃ ps : List String, (genCopyLoopT t fuel n fs tr).2.2 = tr ++ ps.map FsEff.probe := by
  intro fuel
  induction fuel with
  | zero => intro n tr; exact ⟨rfl, rfl, [], by simp [genCopyLoopT]⟩
  | succ f ih =>
    intro n tr
    by_cases hb : pathExists fs (copyCandidate t n) = true
    · have h1 : genCopyLoopT t (f + 1) n fs tr
          = genCopyLoopT t f (n + 1) fs (tr ++ [FsEff.probe (copyCandidate t n)]) := by
        simp [genCopyLoopT, hb]
      have h2 : genCopyLoop fs t (f + 1) n = genCopyLoop fs t f (n + 1) := by
        simp [genCopyLoop, hb]
      rcases ih (n + 1) (tr ++ [FsEff.probe (copyCandidate t n)]) with ⟨ha, hs, ps, hc⟩
      refine ⟨by rw [h1, h2]; exact ha, by rw [h1]; exact hs,
        copyCandidate t n :: ps, ?_⟩
      rw [h1, hc]
      simp
    · have hfree : pathExists fs (copyCandidate t n) = false := by
        cases hx : pathExists fs (copyCandidate t n) with
        | false => rfl
        | true => exact absurd hx hb
      refine ⟨?_, ?_, [copyCandidate t n], ?_⟩ <;> simp [genCopyLoopT, genCopyLoop, hfree]

theorem generate_copy_nameT_spec (fs : FS) (t : String) (tr : List FsEff) :
    (generate_copy_nameT fs t tr).1 = generate_copy_name fs t ∧
    (generate_copy_nameT fs t tr).2.1 = fs ∧
    ∃ ps : List String, (generate_copy_nameT fs t tr).2.2 = tr ++ ps.map FsEff.probe := by
  rcases genCopyLoopT_spec t fs (fs.length + 1) 1 tr with ⟨h1, h2, ps, h3⟩
  exact ⟨by unfold generate_copy_nameT generate_copy_name; rw [h1],
    by unfold generate_copy_nameT; exact h2,
    ps, by unfold generate_copy_nameT; exact h3⟩

/-! ## Claim theorems for the conflict resolver -/

/-- Concrete filesystem for the C1 counterexample. -/
def fsC1 : FS := [("d/a.txt", EKind.file)]

/-- Claim C1 counterexample: with only `d/a.txt` existing (so N = 1 is the
smallest free index), resolving under the Copy policy returns
`d/a_副本1.txt` — the code's suffix is `_副本<N>`, not the `_copy<N>` format
the claim states. -/
theorem C1_counterexample :
    resolve_conflict fsC1 "s/a.txt" "d/a.txt" "copy" false = some "d/a_副本1.txt" ∧
    resolve_conflict fsC1 "s/a.txt" "d/a.txt" "copy" false ≠ some "d/a_copy1.txt" := by
  decide

/-- Claim C1 (amended): for every path whose target exists, resolving under
the Copy policy returns the sibling `<stem>_副本<N><ext>` (with
`(stem, ext) = splitext(basename(target))`, which also governs folder
names), where N is the smallest positive integer such that the candidate
does not currently exist; probing is sequential from N = 1, so resolving
again after the `_副本1` candidate has been created yields `_副本2`. -/
theorem C1_copy_suffix_minimal (fs : FS) (s t : String) (b : Bool)
    (h : pathExists fs t = true) :
    ∃ N, 1 ≤ N ∧
      resolve_conflict fs s t "copy" b = some (copyCandidate t N) ∧
      copyCandidate t N = joinPath (dirname t)
        ((splitext (basename t)).1 ++ "_副本" ++ decStr N ++ (splitext (basename t)).2) ∧
      pathExists fs (copyCandidate t N) = false ∧
      ∀ m, 1 ≤ m → m < N → pathExists fs (copyCandidate t m) = true := by
  rcases generate_copy_name_spec fs t with ⟨N, h1, h2, h3, h4⟩
  refine ⟨N, h1, ?_, rfl, h3, h4⟩
  unfold resolve_conflict
  rw [h]
  rw [if_neg (by simp), if_neg (by decide), if_neg (by decide), if_pos rfl, h2]

/-- Concrete filesystem for the C1 witness: the target and its `_副本1`
sibling both exist, so resolution must yield `_副本2`. -/
def fsW1 : FS := [("d/a.txt", EKind.file), ("d/a_副本1.txt", EKind.file)]

/-- Witness for `C1_copy_suffix_minimal` at a concrete input where the
`_副本1` candidate already exists. -/
theorem C1_witness :
    pathExists fsW1 "d/a.txt" = true ∧
    (∃ N, 1 ≤ N ∧
      resolve_conflict fsW1 "s/a.txt" "d/a.txt" "copy" false = some (copyCandidate "d/a.txt" N) ∧
      copyCandidate "d/a.txt" N = joinPath (dirname "d/a.txt")
        ((splitext (basename "d/a.txt")).1 ++ "_副本" ++ decStr N
          ++ (splitext (basename "d/a.txt")).2) ∧
      pathExists fsW1 (copyCandidate "d/a.txt" N) = false ∧
      ∀ m, 1 ≤ m → m < N → pathExists fsW1 (copyCandidate "d/a.txt" m) = true) :=
  ⟨by decide, C1_copy_suffix_minimal fsW1 "s/a.txt" "d/a.txt" false (by decide)⟩

/-- Claim C9: a file-level conflict (`is_folder = false`) under the Merge
policy falls through to the default branch: it neither skips nor returns
the target, and coincides with the Copy policy, producing a fresh
`generate_copy_name` sibling. -/
theorem C9_merge_policy_on_file_acts_as_copy (fs : FS) (s t : String)
    (h : pathExists fs t = true) :
    resolve_conflict fs s t "merge" false = resolve_conflict fs s t "copy" false ∧
    resolve_conflict fs s t "merge" false = some (generate_copy_name fs t) ∧
    pathExists fs (generate_copy_name fs t) = false ∧
    resolve_conflict fs s t "merge" false ≠ some t ∧
    resolve_conflict fs s t "merge" false ≠ none := by
  have hmerge : resolve_conflict fs s t "merge" false = some (generate_copy_name fs t) := by
    unfold resolve_conflict
    rw [h]
    rw [if_neg (by simp), if_neg (by decide), if_neg (by decide), if_neg (by decide),
      if_neg (by simp)]
  have hcopy : resolve_conflict fs s t "copy" false = some (generate_copy_name fs t) := by
    unfold resolve_conflict
    rw [h]
    rw [if_neg (by simp), if_neg (by decide), if_neg (by decide), if_pos rfl]
  have hfresh := generate_copy_name_fresh fs t
  refine ⟨by rw [hmerge, hcopy], hmerge, hfresh, ?_, by rw [hmerge]; simp⟩
  rw [hmerge]
  intro hcontra
  have hgt : generate_copy_name fs t = t := by
    simpa using hcontra
  rw [hgt, h] at hfresh
  exact absurd hfresh (by simp)

/-- Witness for `C9_merge_policy_on_file_acts_as_copy` on a concrete
conflicting file. -/
theorem C9_witness :
    pathExists fsC1 "d/a.txt" = true ∧
    (resolve_conflict fsC1 "x" "d/a.txt" "merge" false
      = resolve_conflict fsC1 "x" "d/a.txt" "copy" false ∧
     resolve_conflict fsC1 "x" "d/a.txt" "merge" false
      = some (generate_copy_name fsC1 "d/a.txt") ∧
     pathExists fsC1 (generate_copy_name fsC1 "d/a.txt") = false ∧
     resolve_conflict fsC1 "x" "d/a.txt" "merge" false ≠ some "d/a.txt" ∧
     resolve_conflict fsC1 "x" "d/a.txt" "merge" false ≠ none) :=
  ⟨by decide, C9_merge_policy_on_file_acts_as_copy fsC1 "x" "d/a.txt" (by decide)⟩

/-- Claim C8: for every input, the conflict resolver leaves the filesystem
exactly as it found it, and every filesystem interaction it performs is an
existence probe; its result agrees with the pure `resolve_conflict`. -/
theorem C8_resolver_no_mutation (fs : FS) (s t mode : String) (b : Bool) :
    (resolve_conflictT fs s t mode b).2.1 = fs ∧
    (resolve_conflictT fs s t mode b).2.2.all FsEff.isProbe = true ∧
    (resolve_conflictT fs s t mode b).1 = resolve_conflict fs s t mode b := by
  rcases generate_copy_nameT_spec fs t [FsEff.probe t] with ⟨hg1, hg2, ps, hg3⟩
  unfold resolve_conflictT resolve_conflict
  by_cases h0 : pathExists fs t = false
  · simp [h0, FsEff.isProbe]
  · rw [if_neg h0, if_neg h0]
    by_cases h1 : mode = "skip"
    · simp [h1, FsEff.isProbe]
    · rw [if_neg h1, if_neg h1]
      by_cases h2 : mode = "overwrite"
      · simp [h2, FsEff.isProbe]
      · rw [if_neg h2, if_neg h2]
        by_cases h3 : mode = "copy"
        · rw [if_pos h3, if_pos h3]
          refine ⟨hg2, ?_, by rw [hg1]⟩
          rw [hg3]
          simp [FsEff.isProbe, all_isProbe_probes]
        · rw [if_neg h3, if_neg h3]
          by_cases h4 : mode = "merge" ∧ b = true
          · simp [h4, FsEff.isProbe]
          · rw [if_neg h4, if_neg h4]
            refine ⟨hg2, ?_, by rw [hg1]⟩
            rw [hg3]
            simp [FsEff.isProbe, all_isProbe_probes]

/-! ## Helper lemmas: undo selection and the restore loops -/

/-- Does the record at index `k` have status `completed`? -/
def completedAt (l : List Record) (k : Nat) : Bool :=
  match l[k]? with
  | some r => decide (r.status = "completed")
  | none => false

theorem lastCompletedIdx_none_iff : ∀ (l : List Record),
    lastCompletedIdx l = none ↔ ∀ r ∈ l, ¬ r.status = "completed" := by
  intro l
  induction l with
  | nil => simp [lastCompletedIdx]
  | cons r rs ih =>
    rcases htl : lastCompletedIdx rs with _ | k
    · by_cases hst : r.status = "completed"
      · simp [lastCompletedIdx, htl, hst]
      · simp only [lastCompletedIdx, htl, if_neg hst, List.mem_cons]
        constructor
        · intro _ q hq
          rcases hq with rfl | hq
          · exact hst
          · exact (ih.mp htl) q hq
        · intro _
          trivial
    · simp only [lastCompletedIdx, htl, List.mem_cons]
      constructor
      · intro h; exact absurd h (by simp)
      · intro hall
        have hnone : lastCompletedIdx rs = none :=
          ih.mpr (fun q hq => hall q (Or.inr hq))
        rw [hnone] at htl; cases htl

theorem lastCompletedIdx_spec : ∀ (l : List Record) (i : Nat),
    lastCompletedIdx l = some i →
    ∃ r, l[i]? = some r ∧ r.status = "completed" ∧
      ∀ k, i < k → ∀ q, l[k]? = some q → ¬ q.status = "completed" := by
  intro l
  induction l with
  | nil => intro i h; cases h
  | cons r rs ih =>
    intro i h
    unfold lastCompletedIdx at h
    rcases htl : lastCompletedIdx rs with _ | k
    · rw [htl] at h
      by_cases hst : r.status = "completed"
      · rw [if_pos hst] at h
        injection h with h'
        subst h'
        refine ⟨r, by simp, hst, ?_⟩
        intro k hk q hq
        cases k with
        | zero => omega
        | succ k' =>
          have hq' : rs[k']? = some q := by simpa using hq
          exact (lastCompletedIdx_none_iff rs).mp htl q
            (List.mem_iff_getElem?.mpr ⟨k', hq'⟩)
      · rw [if_neg hst] at h; cases h
    · rw [htl] at h
      injection h with h'
      subst h'
      rcases ih k htl with ⟨q, hq, hqc, hmax⟩
      refine ⟨q, by simpa using hq, hqc, ?_⟩
      intro m hm p hp
      cases m with
      | zero => omega
      | succ m' =>
        have hp' : rs[m']? = some p := by simpa using hp
        exact hmax m' (by omega) p hp'

theorem undo_no_eligible (now : String) (hist : List Record) (fs : FS)
    (hn : lastCompletedIdx hist = none) :
    undo_last_operation now (JournalFile.ok hist) fs
      = ⟨false, JournalFile.ok hist, fs⟩ := by
  by_cases he : hist = []
  · subst he
    rfl
  · simp [undo_last_operation, he, hn]

theorem undo_unfold (now : String) (hist : List Record) (fs : FS) (i : Nat) (r : Record)
    (hj : lastCompletedIdx hist = some i) (hr : hist[i]? = some r) :
    undo_last_operation now (JournalFile.ok hist) fs =
      if (undoApply fs r).2.2 = true
      then ⟨false, JournalFile.ok hist, (undoApply fs r).1⟩
      else ⟨true, JournalFile.ok (hist.set i (markUndone r now)), (undoApply fs r).1⟩ := by
  have hne : ¬ hist = [] := by
    intro h0
    subst h0
    cases hj
  simp [undo_last_operation, hne, hj, hr]

theorem undoCutIndex_false {fs : FS} {sp : List String} {i : Nat} {b t : String}
    (h : (undoCutIndex fs sp i b t).2 = false) : (undoCutIndex fs sp i b t).1 = fs := by
  unfold undoCutIndex at h ⊢
  by_cases hb : pathExists fs b = true
  · rw [if_pos hb] at h ⊢
    rcases hs : sp[i]? with _ | src
    · simp [hs]
    · rw [hs] at h
      simp at h
  · rw [if_neg hb]

theorem undoCutSteps_zero (sp : List String) :
    ∀ (l : List (String × String)) (fs : FS) (i : Nat),
      (undoCutSteps sp fs i l).2 = 0 → (undoCutSteps sp fs i l).1 = fs := by
  intro l
  induction l with
  | nil => intro fs i h; rfl
  | cons bt rest ih =>
    intro fs i h
    rcases bt with ⟨b, t⟩
    simp only [undoCutSteps] at h ⊢
    by_cases hp : (undoCutIndex fs sp i b t).2 = true
    · rw [if_pos hp] at h
      omega
    · have hp' : (undoCutIndex fs sp i b t).2 = false := by
        cases hx : (undoCutIndex fs sp i b t).2 with
        | false => rfl
        | true => exact absurd hx hp
      rw [if_neg hp] at h
      have h0 := undoCutIndex_false hp'
      rw [h0] at h ⊢
      exact ih fs (i + 1) (by omega)

theorem undoCopySteps_zero : ∀ (l : List String) (fs : FS),
    (undoCopySteps fs l).2 = 0 → (undoCopySteps fs l).1 = fs := by
  intro l
  induction l with
  | nil => intro fs h; rfl
  | cons t rest ih =>
    intro fs h
    simp only [undoCopySteps] at h ⊢
    by_cases hp : pathExists fs t = true
    · rw [if_pos hp] at h
      omega
    · rw [if_neg hp] at h ⊢
      exact ih fs h

theorem undoApply_halted {fs : FS} {r : Record} (h : (undoApply fs r).2.2 = true) :
    (undoApply fs r).1 = fs := by
  unfold undoApply at h ⊢
  by_cases h1 : r.type = "剪切"
  · rw [if_pos h1] at h ⊢
    have hz : (undoCutSteps r.source_paths fs 0 (r.backup_paths.zip r.target_paths)).2 = 0 := by
      simpa using h
    exact undoCutSteps_zero r.source_paths _ fs 0 hz
  · rw [if_neg h1] at h ⊢
    by_cases h2 : r.type = "复制"
    · rw [if_pos h2] at h ⊢
      have hz : (undoCopySteps fs r.target_paths).2 = 0 := by simpa using h
      exact undoCopySteps_zero r.target_paths fs hz
    · rw [if_neg h2] at h ⊢
      by_cases h3 : r.type = "重命名"
      · rw [if_pos h3] at h ⊢
        have hz : (undoCutSteps r.source_paths fs 0 (r.backup_paths.zip r.target_paths)).2 = 0 := by
          simpa using h
        exact undoCutSteps_zero r.source_paths _ fs 0 hz
      · rw [if_neg h3] at h
        cases h

/-! ## Claim theorems for undo -/

/-- Claim C3: undo scans the journal from newest to oldest, acting on the
record at the greatest index with status `completed`; every record above it
has status `failed` or `undone` (never `completed`), and every record other
than the selected one is written back unchanged. -/
theorem C3_undo_selects_newest_completed (now : String) (hist : List Record) (fs : FS)
    (i : Nat) (hj : lastCompletedIdx hist = some i) :
    ∃ r, hist[i]? = some r ∧ r.status = "completed" ∧
      (∀ k, i < k → ∀ q, hist[k]? = some q → ¬ q.status = "completed") ∧
      ((undo_last_operation now (JournalFile.ok hist) fs).journal = JournalFile.ok hist ∨
        (undo_last_operation now (JournalFile.ok hist) fs).journal
          = JournalFile.ok (hist.set i (markUndone r now))) ∧
      ∀ k, ¬ k = i →
        (journalRecs (undo_last_operation now (JournalFile.ok hist) fs).journal)[k]?
          = hist[k]? := by
  rcases lastCompletedIdx_spec hist i hj with ⟨r, hr, hrc, hmax⟩
  have hu := undo_unfold now hist fs i r hj hr
  refine ⟨r, hr, hrc, hmax, ?_, ?_⟩
  · by_cases hb : (undoApply fs r).2.2 = true
    · left; rw [hu, if_pos hb]
    · right; rw [hu, if_neg hb]
  · intro k hk
    by_cases hb : (undoApply fs r).2.2 = true
    · rw [hu, if_pos hb]
      rfl
    · rw [hu, if_neg hb]
      show (hist.set i (markUndone r now))[k]? = hist[k]?
      exact List.getElem?_set_ne (fun h => hk h.symm)

/-- Records for the C3 witness: the completed record sits below a failed and
an undone record, both of which the scan must skip. -/
def rC3a : Record :=
  { id := "a", type := "复制", source_paths := ["s/a"], target_paths := ["t/a"],
    backup_paths := [], timestamp := "T", status := "completed", success := true,
    error_message := none, undo_timestamp := none }

def rC3b : Record :=
  { rC3a with id := "b", status := "failed", success := false }

def rC3c : Record :=
  { rC3a with id := "c", status := "undone", undo_timestamp := some "U" }

/-- Witness for `C3_undo_selects_newest_completed`: in
`[completed, failed, undone]` the scan selects index 0, skipping the newer
failed and undone records. -/
theorem C3_witness :
    lastCompletedIdx [rC3a, rC3b, rC3c] = some 0 ∧
    (∃ r, [rC3a, rC3b, rC3c][0]? = some r ∧ r.status = "completed" ∧
      (∀ k, 0 < k → ∀ q, [rC3a, rC3b, rC3c][k]? = some q → ¬ q.status = "completed") ∧
      ((undo_last_operation "U" (JournalFile.ok [rC3a, rC3b, rC3c]) [("t/a", EKind.file)]).journal
          = JournalFile.ok [rC3a, rC3b, rC3c] ∨
        (undo_last_operation "U" (JournalFile.ok [rC3a, rC3b, rC3c]) [("t/a", EKind.file)]).journal
          = JournalFile.ok ([rC3a, rC3b, rC3c].set 0 (markUndone r "U"))) ∧
      ∀ k, ¬ k = 0 →
        (journalRecs (undo_last_operation "U" (JournalFile.ok [rC3a, rC3b, rC3c])
            [("t/a", EKind.file)]).journal)[k]?
          = [rC3a, rC3b, rC3c][k]?) :=
  ⟨by decide,
    C3_undo_selects_newest_completed "U" [rC3a, rC3b, rC3c] [("t/a", EKind.file)] 0 (by decide)⟩

/-- Claim C10: a missing, malformed or empty journal, or one with no
`completed` record, makes undo return `False` without touching the journal
file or the filesystem. -/
theorem C10_undo_no_eligible_returns_false (now : String) (j : JournalFile) (fs : FS)
    (h : j = JournalFile.missing ∨ j = JournalFile.malformed ∨
      ∃ hist, j = JournalFile.ok hist ∧ lastCompletedIdx hist = none) :
    undo_last_operation now j fs = ⟨false, j, fs⟩ := by
  rcases h with h | h | ⟨hist, rfl, hn⟩
  · subst h; rfl
  · subst h; rfl
  · exact undo_no_eligible now hist fs hn

/-- Witness for `C10_undo_no_eligible_returns_false`: a journal holding only
a failed record (no `completed` entry). -/
theorem C10_witness :
    (JournalFile.ok [rC3b] = JournalFile.missing ∨
      JournalFile.ok [rC3b] = JournalFile.malformed ∨
      ∃ hist, JournalFile.ok [rC3b] = JournalFile.ok hist ∧ lastCompletedIdx hist = none) ∧
    undo_last_operation "U" (JournalFile.ok [rC3b]) [("t/a", EKind.file)]
      = ⟨false, JournalFile.ok [rC3b], [("t/a", EKind.file)]⟩ :=
  ⟨Or.inr (Or.inr ⟨[rC3b], rfl, by decide⟩),
    C10_undo_no_eligible_returns_false "U" (JournalFile.ok [rC3b]) [("t/a", EKind.file)]
      (Or.inr (Or.inr ⟨[rC3b], rfl, by decide⟩))⟩

/-- Record for the C4 counterexample: a completed Cut record whose only
backup path does not exist on disk, so every restore step fails. -/
def rC4 : Record :=
  { id := "c4", type := "剪切", source_paths := ["s/f.txt"], target_paths := ["t/f.txt"],
    backup_paths := [".temp_backup/backup_f"], timestamp := "T", status := "completed",
    success := true, error_message := none, undo_timestamp := none }

/-- Claim C4 counterexample: undo acts on the completed Cut record `rC4`
(it is selected), all zero of its restore steps succeed, and — contrary to
the claim — the record keeps status `completed` with no `undo_timestamp`,
the journal file is not rewritten, and the very same record is still the
one a subsequent undo would select. -/
theorem C4_counterexample :
    (undo_last_operation "U" (JournalFile.ok [rC4]) []).ret = false ∧
    (undo_last_operation "U" (JournalFile.ok [rC4]) []).journal = JournalFile.ok [rC4] ∧
    rC4.status = "completed" ∧ rC4.undo_timestamp = none ∧
    lastCompletedIdx
      (journalRecs (undo_last_operation "U" (JournalFile.ok [rC4]) []).journal) = some 0 := by
  decide

/-- Claim C4 (amended): when undo acts on an eligible record, then — provided
at least one per-index restore step succeeded (`undoApply` did not bail out;
this always holds for records of unknown type) — the record's status becomes
`undone`, an `undo_timestamp` is set, and the journal is rewritten with this
mutation.  When every step failed (`success_count = 0` for the three known
types), undo instead returns `False` with the journal untouched: the record
keeps status `completed` and remains selectable by a subsequent undo. -/
theorem C4_status_update_characterization (now : String) (hist : List Record) (fs : FS)
    (i : Nat) (r : Record) (hj : lastCompletedIdx hist = some i)
    (hr : hist[i]? = some r) :
    ((undoApply fs r).2.2 = false →
      (undo_last_operation now (JournalFile.ok hist) fs).ret = true ∧
      (undo_last_operation now (JournalFile.ok hist) fs).journal
        = JournalFile.ok (hist.set i (markUndone r now)) ∧
      (markUndone r now).status = "undone" ∧
      (markUndone r now).undo_timestamp = some now) ∧
    ((undoApply fs r).2.2 = true →
      (undo_last_operation now (JournalFile.ok hist) fs).ret = false ∧
      (undo_last_operation now (JournalFile.ok hist) fs).journal = JournalFile.ok hist ∧
      r.status = "completed") := by
  have hu := undo_unfold now hist fs i r hj hr
  constructor
  · intro hfalse
    rw [hu, if_neg (by rw [hfalse]; simp)]
    exact ⟨rfl, rfl, rfl, rfl⟩
  · intro htrue
    rw [hu, if_pos htrue]
    refine ⟨rfl, rfl, ?_⟩
    rcases lastCompletedIdx_spec hist i hj with ⟨q, hq, hqc, _⟩
    rw [hr] at hq
    injection hq with hq'
    rw [hq']
    exact hqc

/-- Record for the C4 witness: a completed Copy record whose target exists,
so its single restore step succeeds. -/
def rW4 : Record :=
  { id := "w4", type := "复制", source_paths := ["s/x"], target_paths := ["t/x"],
    backup_paths := [], timestamp := "T", status := "completed", success := true,
    error_message := none, undo_timestamp := none }

/-- Witness for `C4_status_update_characterization` on a journal holding one
completed Copy record with an existing target. -/
theorem C4_witness :
    lastCompletedIdx [rW4] = some 0 ∧ [rW4][0]? = some rW4 ∧
    (((undoApply [("t/x", EKind.file)] rW4).2.2 = false →
      (undo_last_operation "U" (JournalFile.ok [rW4]) [("t/x", EKind.file)]).ret = true ∧
      (undo_last_operation "U" (JournalFile.ok [rW4]) [("t/x", EKind.file)]).journal
        = JournalFile.ok ([rW4].set 0 (markUndone rW4 "U")) ∧
      (markUndone rW4 "U").status = "undone" ∧
      (markUndone rW4 "U").undo_timestamp = some "U") ∧
    ((undoApply [("t/x", EKind.file)] rW4).2.2 = true →
      (undo_last_operation "U" (JournalFile.ok [rW4]) [("t/x", EKind.file)]).ret = false ∧
      (undo_last_operation "U" (JournalFile.ok [rW4]) [("t/x", EKind.file)]).journal
        = JournalFile.ok [rW4] ∧
      rW4.status = "completed")) :=
  ⟨by decide, by decide,
    C4_status_update_characterization "U" [rW4] [("t/x", EKind.file)] 0 rW4
      (by decide) (by decide)⟩

/-- Records and filesystem for the C7 counterexample: two completed Copy
batches, each with one existing target. -/
def rA7 : Record :=
  { id := "A", type := "复制", source_paths := ["s/a"], target_paths := ["ta"],
    backup_paths := [], timestamp := "T", status := "completed", success := true,
    error_message := none, undo_timestamp := none }

def rB7 : Record :=
  { rA7 with id := "B", source_paths := ["s/b"], target_paths := ["tb"] }

def fs7 : FS := [("ta", EKind.file), ("tb", EKind.file)]

def j7 : JournalFile := JournalFile.ok [rA7, rB7]

/-- Claim C7 counterexample: with two completed Copy records in the journal,
the first undo acts on the newer record (deleting `tb`), and the second,
called with no intervening batch, acts on the older record and deletes
`ta` — a filesystem change on the second call. -/
theorem C7_counterexample :
    (undo_last_operation "T1" j7 fs7).ret = true ∧
    pathExists (undo_last_operation "T1" j7 fs7).fs "ta" = true ∧
    (undo_last_operation "T2" (undo_last_operation "T1" j7 fs7).journal
        (undo_last_operation "T1" j7 fs7).fs).fs
      ≠ (undo_last_operation "T1" j7 fs7).fs ∧
    pathExists (undo_last_operation "T2" (undo_last_operation "T1" j7 fs7).journal
        (undo_last_operation "T1" j7 fs7).fs).fs "ta" = false := by
  decide

/-- Claim C7 (amended): if undo is called twice consecutively with no
intervening batch, and the record the first call acted on was the only
record in the journal with status `completed`, then the second call
performs no filesystem change, leaves the journal as the first call left
it, and returns `False`.  (With further completed records below, the second
call acts on the next-older one instead.) -/
theorem C7_second_undo_noop_when_single_completed (now1 now2 : String)
    (hist : List Record) (fs : FS) (i : Nat)
    (hj : lastCompletedIdx hist = some i)
    (honly : ((List.range hist.length).all
      (fun k => k == i || !(completedAt hist k))) = true) :
    (undo_last_operation now2 (undo_last_operation now1 (JournalFile.ok hist) fs).journal
        (undo_last_operation now1 (JournalFile.ok hist) fs).fs).fs
      = (undo_last_operation now1 (JournalFile.ok hist) fs).fs ∧
    (undo_last_operation now2 (undo_last_operation now1 (JournalFile.ok hist) fs).journal
        (undo_last_operation now1 (JournalFile.ok hist) fs).fs).journal
      = (undo_last_operation now1 (JournalFile.ok hist) fs).journal ∧
    (undo_last_operation now2 (undo_last_operation now1 (JournalFile.ok hist) fs).journal
        (undo_last_operation now1 (JournalFile.ok hist) fs).fs).ret = false := by
  rcases lastCompletedIdx_spec hist i hj with ⟨r, hr, hrc, hmax⟩
  have hu := undo_unfold now1 hist fs i r hj hr
  have hlen : i < hist.length := by
    rcases List.getElem?_eq_some_iff.mp hr with ⟨h, _⟩
    exact h
  by_cases hb : (undoApply fs r).2.2 = true
  · have h1 : undo_last_operation now1 (JournalFile.ok hist) fs
        = ⟨false, JournalFile.ok hist, (undoApply fs r).1⟩ := by
      rw [hu, if_pos hb]
    have hfs : (undoApply fs r).1 = fs := undoApply_halted hb
    rw [h1, hfs]
    have hu2 := undo_unfold now2 hist fs i r hj hr
    rw [hu2, if_pos hb, hfs]
    exact ⟨rfl, rfl, rfl⟩
  · have h1 : undo_last_operation now1 (JournalFile.ok hist) fs
        = ⟨true, JournalFile.ok (hist.set i (markUndone r now1)), (undoApply fs r).1⟩ := by
      rw [hu, if_neg hb]
    rw [h1]
    have hnone : lastCompletedIdx (hist.set i (markUndone r now1)) = none := by
      rw [lastCompletedIdx_none_iff]
      intro q hq
      rcases List.mem_iff_getElem?.mp hq with ⟨k, hk⟩
      by_cases hki : k = i
      · subst hki
        rw [List.getElem?_set_self (by simpa using hlen)] at hk
        injection hk with hk'
        rw [← hk']
        intro habs
        exact absurd habs (by simp [markUndone])
      · rw [List.getElem?_set_ne (fun h => hki h.symm)] at hk
        have hklen : k < hist.length := by
          rcases List.getElem?_eq_some_iff.mp hk with ⟨h, _⟩
          exact h
        have hall := List.all_eq_true.mp honly k (List.mem_range.mpr hklen)
        simp only [Bool.or_eq_true, beq_iff_eq, Bool.not_eq_true'] at hall
        rcases hall with hk2 | hk2
        · exact absurd hk2 hki
        · unfold completedAt at hk2
          rw [hk] at hk2
          simpa using hk2
    have h2 := undo_no_eligible now2 (hist.set i (markUndone r now1)) (undoApply fs r).1 hnone
    rw [h2]
    exact ⟨rfl, rfl, rfl⟩

/-- Record for the C7 witness: the only completed record in the journal. -/
def rW7 : Record :=
  { id := "w7", type := "复制", source_paths := ["s/y"], target_paths := ["t/y"],
    backup_paths := [], timestamp := "T", status := "completed", success := true,
    error_message := none, undo_timestamp := none }

/-- Witness for `C7_second_undo_noop_when_single_completed` on a journal
whose single record is completed. -/
theorem C7_witness :
    lastCompletedIdx [rW7] = some 0 ∧
    ((List.range [rW7].length).all (fun k => k == 0 || !(completedAt [rW7] k))) = true ∧
    ((undo_last_operation "T2"
        (undo_last_operation "T1" (JournalFile.ok [rW7]) [("t/y", EKind.file)]).journal
        (undo_last_operation "T1" (JournalFile.ok [rW7]) [("t/y", EKind.file)]).fs).fs
      = (undo_last_operation "T1" (JournalFile.ok [rW7]) [("t/y", EKind.file)]).fs ∧
    (undo_last_operation "T2"
        (undo_last_operation "T1" (JournalFile.ok [rW7]) [("t/y", EKind.file)]).journal
        (undo_last_operation "T1" (JournalFile.ok [rW7]) [("t/y", EKind.file)]).fs).journal
      = (undo_last_operation "T1" (JournalFile.ok [rW7]) [("t/y", EKind.file)]).journal ∧
    (undo_last_operation "T2"
        (undo_last_operation "T1" (JournalFile.ok [rW7]) [("t/y", EKind.file)]).journal
        (undo_last_operation "T1" (JournalFile.ok [rW7]) [("t/y", EKind.file)]).fs).ret
      = false) :=
  ⟨by decide, by decide,
    C7_second_undo_noop_when_single_completed "T1" "T2" [rW7] [("t/y", EKind.file)] 0
      (by decide) (by decide)⟩

/-! ## Helper lemmas: journal-array alignment in the batch driver -/

/-- The alignment invariant the driver state maintains between items:
`source_paths` and `target_paths` grow in lock-step, and in cut mode
`backup_paths` tracks `source_paths` (in copy mode it stays empty). -/
def drvInv (cut : Bool) (st : DrvState) : Prop :=
  st.sources.length = st.copied.length ∧
  st.backups.length = (if cut = true then st.sources.length else 0)

theorem shutilCopy2_lists (faults : Faults) (st : DrvState) (src dst : String) :
    (shutilCopy2 faults st src dst).1.copied = st.copied ∧
    (shutilCopy2 faults st src dst).1.sources = st.sources ∧
    (shutilCopy2 faults st src dst).1.backups = st.backups := by
  unfold shutilCopy2
  split <;> exact ⟨rfl, rfl, rfl⟩

theorem shutilMove_lists (faults : Faults) (st : DrvState) (src dst : String) :
    (shutilMove faults st src dst).1.copied = st.copied ∧
    (shutilMove faults st src dst).1.sources = st.sources ∧
    (shutilMove faults st src dst).1.backups = st.backups := by
  unfold shutilMove
  split <;> exact ⟨rfl, rfl, rfl⟩

theorem cutRestore_err (faults : Faults) (m1 : DrvState) (temp_backup source_file : String) :
    (cutRestore faults m1 temp_backup source_file).2.1 = some "move failed" := by
  unfold cutRestore
  split <;> rfl

theorem cutMove_inv (faults : Faults) (st3 : DrvState)
    (source_file resolved temp_backup : String)
    (hok : (cutMove faults st3 source_file resolved temp_backup).2.1 = none) :
    (cutMove faults st3 source_file resolved temp_backup).1.sources = st3.sources ∧
    (cutMove faults st3 source_file resolved temp_backup).1.backups = st3.backups ∧
    (cutMove faults st3 source_file resolved temp_backup).1.copied
      = st3.copied ++ [resolved] := by
  have hl := shutilMove_lists faults st3 source_file resolved
  unfold cutMove at hok ⊢
  cases hm : shutilMove faults st3 source_file resolved with
  | mk m1 ok =>
    rw [hm] at hl
    simp only at hl
    cases ok with
    | false =>
      rw [hm] at hok
      simp [cutRestore_err] at hok
    | true =>
      exact ⟨by simp [hl.2.1], by simp [hl.2.2], by simp [hl.1]⟩

theorem cutBackup_inv (faults : Faults) (st1 : DrvState)
    (source_file resolved temp_backup : String)
    (hok : (cutBackup faults st1 source_file resolved temp_backup).2.1 = none) :
    (cutBackup faults st1 source_file resolved temp_backup).1.sources
      = st1.sources ++ [source_file] ∧
    (cutBackup faults st1 source_file resolved temp_backup).1.backups
      = st1.backups ++ [temp_backup] ∧
    (cutBackup faults st1 source_file resolved temp_backup).1.copied
      = st1.copied ++ [resolved] := by
  have hl := shutilCopy2_lists faults st1 source_file temp_backup
  unfold cutBackup at hok ⊢
  cases hc : shutilCopy2 faults st1 source_file temp_backup with
  | mk c1 ok =>
    rw [hc] at hl
    simp only at hl
    cases ok with
    | false =>
      rw [hc] at hok
      simp at hok
    | true =>
      rw [hc] at hok
      have hm := cutMove_inv faults
        { c1 with backups := c1.backups ++ [temp_backup],
                  sources := c1.sources ++ [source_file] }
        source_file resolved temp_backup hok
      refine ⟨?_, ?_, ?_⟩
      · show (cutMove faults
            { c1 with backups := c1.backups ++ [temp_backup],
                      sources := c1.sources ++ [source_file] }
            source_file resolved temp_backup).1.sources = st1.sources ++ [source_file]
        rw [hm.1]
        simp [hl.2.1]
      · show (cutMove faults
            { c1 with backups := c1.backups ++ [temp_backup],
                      sources := c1.sources ++ [source_file] }
            source_file resolved temp_backup).1.backups = st1.backups ++ [temp_backup]
        rw [hm.2.1]
        simp [hl.2.2]
      · show (cutMove faults
            { c1 with backups := c1.backups ++ [temp_backup],
                      sources := c1.sources ++ [source_file] }
            source_file resolved temp_backup).1.copied = st1.copied ++ [resolved]
        rw [hm.2.2]
        simp [hl.1]

theorem cutTransfer_inv (faults : Faults) (temp_backup : String) (st1 : DrvState)
    (source_file resolved : String)
    (hok : (cutTransfer faults temp_backup st1 source_file resolved).2.1 = none) :
    ((cutTransfer faults temp_backup st1 source_file resolved).1.sources = st1.sources ∧
      (cutTransfer faults temp_backup st1 source_file resolved).1.backups = st1.backups ∧
      (cutTransfer faults temp_backup st1 source_file resolved).1.copied = st1.copied) ∨
    ((cutTransfer faults temp_backup st1 source_file resolved).1.sources
        = st1.sources ++ [source_file] ∧
      (cutTransfer faults temp_backup st1 source_file resolved).1.backups
        = st1.backups ++ [temp_backup] ∧
      (cutTransfer faults temp_backup st1 source_file resolved).1.copied
        = st1.copied ++ [resolved]) := by
  unfold cutTransfer at hok ⊢
  by_cases hsrc : pathExists st1.fs source_file = false
  · rw [if_pos hsrc]
    left
    exact ⟨rfl, rfl, rfl⟩
  · rw [if_neg hsrc] at hok ⊢
    right
    exact cutBackup_inv faults st1 source_file resolved temp_backup hok

theorem copyTransfer_inv (faults : Faults) (dest_file : String) (st : DrvState)
    (source_file resolved : String)
    (hok : (copyTransfer faults dest_file st source_file resolved).2.1 = none) :
    (copyTransfer faults dest_file st source_file resolved).1.sources
      = st.sources ++ [source_file] ∧
    (copyTransfer faults dest_file st source_file resolved).1.backups = st.backups ∧
    (copyTransfer faults dest_file st source_file resolved).1.copied
      = st.copied ++ [resolved] := by
  have hbase : ((if ¬ (resolved = dest_file)
        then { st with fs := makedirs st.fs (dirname resolved) } else st) : DrvState).sources
          = st.sources ∧
      ((if ¬ (resolved = dest_file)
        then { st with fs := makedirs st.fs (dirname resolved) } else st) : DrvState).backups
          = st.backups ∧
      ((if ¬ (resolved = dest_file)
        then { st with fs := makedirs st.fs (dirname resolved) } else st) : DrvState).copied
          = st.copied := by
    split <;> exact ⟨rfl, rfl, rfl⟩
  have hl := shutilCopy2_lists faults
    (if ¬ (resolved = dest_file) then { st with fs := makedirs st.fs (dirname resolved) }
     else st) source_file resolved
  unfold copyTransfer at hok ⊢
  cases hc : shutilCopy2 faults
      (if ¬ (resolved = dest_file) then { st with fs := makedirs st.fs (dirname resolved) }
       else st) source_file resolved with
  | mk c1 ok =>
    rw [hc] at hl
    simp only at hl
    cases ok with
    | false =>
      rw [hc] at hok
      simp at hok
    | true =>
      refine ⟨?_, ?_, ?_⟩ <;>
        simp [hl.1, hl.2.1, hl.2.2,
          apply_ite (fun s : DrvState => s.sources),
          apply_ite (fun s : DrvState => s.backups),
          apply_ite (fun s : DrvState => s.copied)]

theorem processMatch_inv (faults : Faults) (bkpName : Nat → String) (cut : Bool)
    (mode target tname : String) (st : DrvState) (m : String)
    (hinv : drvInv cut st)
    (hok : (processMatch faults bkpName cut mode target tname st m).2.1 = none) :
    drvInv cut (processMatch faults bkpName cut mode target tname st m).1 := by
  unfold processMatch at hok ⊢
  set st2 := stAfterDestDir st (joinPath target tname) with hst2
  have hinv2 : drvInv cut st2 := by
    rcases hinv with ⟨a, b⟩
    exact ⟨a, b⟩
  cases hres : resolve_conflict st2.fs m (joinPath target tname) mode false with
  | none => exact hinv2
  | some resolved =>
    cases cut with
    | true =>
      have hct := cutTransfer_inv faults
        (joinPath ".temp_backup" ("backup_" ++ basename m ++ "_" ++ bkpName st2.bkpIdx))
        { st2 with bkpIdx := st2.bkpIdx + 1 }
        m resolved (by rw [hres] at hok; exact hok)
      rcases hinv2 with ⟨hi1, hi2⟩
      simp at hi2
      rcases hct with ⟨h1, h2, h3⟩ | ⟨h1, h2, h3⟩ <;>
        simp only at h1 h2 h3 <;>
        exact ⟨by simp [drvInv, h1, h3, hi1, hi2]; try omega,
          by simp [drvInv, h1, h2, h3, hi1, hi2]; try omega⟩
    | false =>
      have hcp := copyTransfer_inv faults (joinPath target tname) st2 m resolved
        (by rw [hres] at hok; exact hok)
      rcases hinv2 with ⟨hi1, hi2⟩
      simp at hi2
      rcases hcp with ⟨h1, h2, h3⟩
      exact ⟨by simp [drvInv, h1, h3, hi1, hi2]; try omega,
        by simp [drvInv, h1, h2, h3, hi1, hi2]; try omega⟩

theorem processRow_inv (faults : Faults) (bkpName : Nat → String) (cut : Bool)
    (mode target tname : String) :
    ∀ (ms : List String) (st : DrvState), drvInv cut st →
      (processRow faults bkpName cut mode target tname st ms).2 = none →
      drvInv cut (processRow faults bkpName cut mode target tname st ms).1 := by
  intro ms
  induction ms with
  | nil => intro st h _; exact h
  | cons m rest ih =>
    intro st hinv hok
    unfold processRow at hok ⊢
    cases hpm : processMatch faults bkpName cut mode target tname st m with
    | mk st1 pr =>
      have hnone : pr.1 = none → drvInv cut st1 := by
        intro hp
        have hi := processMatch_inv faults bkpName cut mode target tname st m hinv
          (by rw [hpm, hp])
        rw [hpm] at hi
        exact hi
      rcases pr with ⟨err, found⟩
      cases err with
      | some e =>
        rw [hpm] at hok
        simp at hok
      | none =>
        cases found with
        | true => exact hnone rfl
        | false =>
          rw [hpm] at hok
          exact ih st1 (hnone rfl) hok

theorem processRows_inv (faults : Faults) (bkpName : Nat → String) (cut : Bool)
    (mode source target : String) :
    ∀ (rows : List (String × String)) (st : DrvState), drvInv cut st →
      (processRows faults bkpName cut mode source target st rows).2 = none →
      drvInv cut (processRows faults bkpName cut mode source target st rows).1 := by
  intro rows
  induction rows with
  | nil => intro st h _; exact h
  | cons row rest ih =>
    intro st hinv hok
    rcases row with ⟨file_name, target_name⟩
    unfold processRows at hok ⊢
    cases hpr : processRow faults bkpName cut mode target target_name st
        (walkMatches st.fs source file_name) with
    | mk st1 err =>
      have hone : err = none → drvInv cut st1 := by
        intro hp
        have hi := processRow_inv faults bkpName cut mode target target_name
          (walkMatches st.fs source file_name) st hinv (by rw [hpr, hp])
        rw [hpr] at hi
        exact hi
      cases err with
      | some e =>
        rw [hpr] at hok
        simp at hok
      | none =>
        rw [hpr] at hok
        exact ih st1 (hone rfl) hok

theorem driverBody_inv (faults : Faults) (bkpName : Nat → String) (fs : FS)
    (source target : String) (csv : Option (List (String × String)))
    (cut : Bool) (mode : String)
    (hok : (driverBody faults bkpName fs source target csv cut mode).2 = none) :
    drvInv cut (driverBody faults bkpName fs source target csv cut mode).1 := by
  unfold driverBody at hok ⊢
  by_cases hsrc : pathExists fs source = false
  · rw [if_pos hsrc] at hok
    simp at hok
  · rw [if_neg hsrc] at hok ⊢
    cases csv with
    | none => simp at hok
    | some rows =>
      exact processRows_inv faults bkpName cut mode source target rows
        ⟨makedirs (if pathExists fs target then fs else makedirs fs target) ".temp_backup",
          [], [], [], 0, 0⟩ (by constructor <;> simp [drvInv]) hok

/-! ## Claim theorems for the batch driver -/

/-- Claim C5: every `search_and_copy_files` call — whatever its outcome —
appends exactly one record to the journal (the `finally` block), with
status `completed` exactly when the batch raised no exception and `failed`
(with `success = false`) otherwise. -/
theorem C5_one_record_per_batch (faults : Faults) (bkpName : Nat → String)
    (now operation_id : String) (fs : FS) (source target : String)
    (csv : Option (List (String × String))) (cut_mode : Bool)
    (conflict_mode0 : Option String) (h : List Record) :
    (search_and_copy_files faults bkpName now operation_id fs source target csv cut_mode
        conflict_mode0 (JournalFile.ok h)).journal
      = JournalFile.ok (h ++ [(search_and_copy_files faults bkpName now operation_id fs
          source target csv cut_mode conflict_mode0 (JournalFile.ok h)).record]) ∧
    (search_and_copy_files faults bkpName now operation_id fs source target csv cut_mode
        conflict_mode0 (JournalFile.ok h)).record.status
      = (if (search_and_copy_files faults bkpName now operation_id fs source target csv
            cut_mode conflict_mode0 (JournalFile.ok h)).success = true
         then "completed" else "failed") ∧
    (search_and_copy_files faults bkpName now operation_id fs source target csv cut_mode
        conflict_mode0 (JournalFile.ok h)).record.success
      = (search_and_copy_files faults bkpName now operation_id fs source target csv cut_mode
          conflict_mode0 (JournalFile.ok h)).success :=
  ⟨rfl, rfl, rfl⟩

/-- Fault oracle for the C2 counterexample: the second fallible call (the
`shutil.move` after a successful backup) raises. -/
def faultsC2 : Faults := fun n => n == 1

/-- Filesystem for the C2 scenario: a source tree with one file and an
existing target directory. -/
def fsC2 : FS := [("src", EKind.dir), ("src/a.txt", EKind.file), ("tgt", EKind.dir)]

/-- Claim C2 counterexample: a cut batch whose move fails after the backup
was taken persists a record with `len(source_paths) = len(backup_paths) = 1`
but `len(target_paths) = 0` — the arrays of a journaled (failed) record are
not length-aligned. -/
theorem C2_counterexample :
    (search_and_copy_files faultsC2 (fun _ => "r0") "T" "id0" fsC2 "src" "tgt"
        (some [("a.txt", "a.txt")]) true none (JournalFile.ok [])).record.source_paths.length
      = 1 ∧
    (search_and_copy_files faultsC2 (fun _ => "r0") "T" "id0" fsC2 "src" "tgt"
        (some [("a.txt", "a.txt")]) true none (JournalFile.ok [])).record.backup_paths.length
      = 1 ∧
    (search_and_copy_files faultsC2 (fun _ => "r0") "T" "id0" fsC2 "src" "tgt"
        (some [("a.txt", "a.txt")]) true none (JournalFile.ok [])).record.target_paths.length
      = 0 ∧
    (search_and_copy_files faultsC2 (fun _ => "r0") "T" "id0" fsC2 "src" "tgt"
        (some [("a.txt", "a.txt")]) true none (JournalFile.ok [])).record.status = "failed" ∧
    (search_and_copy_files faultsC2 (fun _ => "r0") "T" "id0" fsC2 "src" "tgt"
        (some [("a.txt", "a.txt")]) true none (JournalFile.ok [])).journal
      = JournalFile.ok [(search_and_copy_files faultsC2 (fun _ => "r0") "T" "id0" fsC2 "src"
          "tgt" (some [("a.txt", "a.txt")]) true none (JournalFile.ok [])).record] := by
  decide

/-- Claim C2 (amended): every OperationRecord persisted with status
`completed` satisfies `len(source_paths) = len(target_paths)`, and for cut
batches additionally `len(backup_paths) = len(source_paths)` (in copy mode
`backup_paths` is empty), index-aligned by construction.  Records of
batches that failed between a cut item's backup and its move carry one
more source/backup entry than target entries, so the alignment is only
guaranteed for completed records. -/
theorem C2_alignment_for_completed (faults : Faults) (bkpName : Nat → String)
    (now operation_id : String) (fs : FS) (source target : String)
    (csv : Option (List (String × String))) (cut_mode : Bool)
    (conflict_mode0 : Option String) (h : List Record)
    (hok : (search_and_copy_files faults bkpName now operation_id fs source target csv
        cut_mode conflict_mode0 (JournalFile.ok h)).success = true) :
    (search_and_copy_files faults bkpName now operation_id fs source target csv cut_mode
        conflict_mode0 (JournalFile.ok h)).record.source_paths.length
      = (search_and_copy_files faults bkpName now operation_id fs source target csv cut_mode
          conflict_mode0 (JournalFile.ok h)).record.target_paths.length ∧
    (search_and_copy_files faults bkpName now operation_id fs source target csv cut_mode
        conflict_mode0 (JournalFile.ok h)).record.backup_paths.length
      = (if cut_mode = true then
          (search_and_copy_files faults bkpName now operation_id fs source target csv cut_mode
            conflict_mode0 (JournalFile.ok h)).record.source_paths.length
         else 0) ∧
    (search_and_copy_files faults bkpName now operation_id fs source target csv cut_mode
        conflict_mode0 (JournalFile.ok h)).record.status = "completed" := by
  have hnone : (driverBody faults bkpName fs source target csv cut_mode
      (conflict_mode0.getD DEFAULT_CONFLICT_MODE)).2 = none :=
    Option.isNone_iff_eq_none.mp hok
  have hi := driverBody_inv faults bkpName fs source target csv cut_mode
    (conflict_mode0.getD DEFAULT_CONFLICT_MODE) hnone
  rcases hi with ⟨hi1, hi2⟩
  refine ⟨hi1, ?_, ?_⟩
  · cases cut_mode with
    | true =>
      show (driverBody faults bkpName fs source target csv true
          (conflict_mode0.getD DEFAULT_CONFLICT_MODE)).1.backups.length = _
      simpa using hi2
    | false =>
      show (([] : List String)).length = _
      simp
  · show (if (driverBody faults bkpName fs source target csv cut_mode
        (conflict_mode0.getD DEFAULT_CONFLICT_MODE)).2.isNone = true
      then "completed" else "failed") = "completed"
    rw [if_pos (by rw [hnone]; rfl)]

/-- Witness for `C2_alignment_for_completed`: a successful cut batch over
one file; source, target and backup arrays all have length one. -/
theorem C2_witness :
    (search_and_copy_files (fun _ => false) (fun _ => "r0") "T" "idw" fsC2 "src" "tgt"
        (some [("a.txt", "a.txt")]) true none (JournalFile.ok [])).success = true ∧
    ((search_and_copy_files (fun _ => false) (fun _ => "r0") "T" "idw" fsC2 "src" "tgt"
        (some [("a.txt", "a.txt")]) true none (JournalFile.ok [])).record.source_paths.length
      = (search_and_copy_files (fun _ => false) (fun _ => "r0") "T" "idw" fsC2 "src" "tgt"
          (some [("a.txt", "a.txt")]) true none (JournalFile.ok [])).record.target_paths.length ∧
    (search_and_copy_files (fun _ => false) (fun _ => "r0") "T" "idw" fsC2 "src" "tgt"
        (some [("a.txt", "a.txt")]) true none (JournalFile.ok [])).record.backup_paths.length
      = (if true = true then
          (search_and_copy_files (fun _ => false) (fun _ => "r0") "T" "idw" fsC2 "src" "tgt"
            (some [("a.txt", "a.txt")]) true none (JournalFile.ok [])).record.source_paths.length
         else 0) ∧
    (search_and_copy_files (fun _ => false) (fun _ => "r0") "T" "idw" fsC2 "src" "tgt"
        (some [("a.txt", "a.txt")]) true none (JournalFile.ok [])).record.status
      = "completed") :=
  ⟨by decide,
    C2_alignment_for_completed (fun _ => false) (fun _ => "r0") "T" "idw" fsC2 "src" "tgt"
      (some [("a.txt", "a.txt")]) true none [] (by decide)⟩

/-! ## Helper lemmas: merge monotonicity and the conflicted-file step -/

theorem pathExists_append_mono {fs : FS} (ext : FS) {q : String}
    (h : pathExists fs q = true) : pathExists (fs ++ ext) q = true := by
  rw [pathExists_iff_mem] at h ⊢
  simp only [List.map_append, List.mem_append]
  exact Or.inl h

theorem pathExists_copytree_mono {fs : FS} {src dst q : String}
    (h : pathExists fs q = true) : pathExists (copytree fs src dst) q = true :=
  pathExists_append_mono _ h

theorem pathExists_setEntry_mono {fs : FS} {p q : String} (k : EKind)
    (h : pathExists fs q = true) : pathExists (setEntry fs p k) q = true := by
  rw [pathExists_iff_mem] at h ⊢
  rcases List.mem_map.mp h with ⟨e, he, hq⟩
  by_cases hqp : q = p
  · subst hqp
    refine List.mem_map.mpr ⟨(q, k), ?_, rfl⟩
    unfold setEntry
    exact List.mem_append.mpr (Or.inr (by simp))
  · refine List.mem_map.mpr ⟨e, ?_, hq⟩
    unfold setEntry
    refine List.mem_append.mpr (Or.inl ?_)
    refine List.mem_filter.mpr ⟨he, ?_⟩
    simp [hq, hqp]

theorem mergeGo_mono (faults : Faults) :
    ∀ (fuel : Nat) (st : MSt) (src tgt : String) (items : List String) (q : String),
      pathExists st.fs q = true →
      pathExists (mergeGo faults fuel st src tgt items).1.fs q = true := by
  intro fuel
  induction fuel with
  | zero => intro st src tgt items q h; exact h
  | succ f ih =>
    intro st src tgt items q h
    cases items with
    | nil => exact h
    | cons name rest =>
      unfold mergeGo
      by_cases hd : isDir st.fs (joinPath src name) = true
      · rw [if_pos hd]
        by_cases ht : pathExists st.fs (joinPath tgt name) = false
        · rw [if_pos ht]
          by_cases hf : faults st.opIdx = true
          · rw [if_pos hf]; exact h
          · rw [if_neg hf]
            exact ih _ _ _ _ _ (pathExists_copytree_mono h)
        · rw [if_neg ht]
          cases hin : mergeGo faults f st (joinPath src name) (joinPath tgt name)
              (listdir st.fs (joinPath src name)) with
          | mk st1 e =>
            have h1 : pathExists st1.fs q = true := by
              have hm := ih st (joinPath src name) (joinPath tgt name)
                (listdir st.fs (joinPath src name)) q h
              rw [hin] at hm
              exact hm
            cases e with
            | some err => exact h1
            | none => exact ih _ _ _ _ _ h1
      · rw [if_neg hd]
        by_cases ht : pathExists st.fs (joinPath tgt name) = false
        · rw [if_pos ht]
          by_cases hf : faults st.opIdx = true
          · rw [if_pos hf]; exact h
          · rw [if_neg hf]
            exact ih _ _ _ _ _ (pathExists_setEntry_mono _ h)
        · rw [if_neg ht]
          by_cases hf : faults st.opIdx = true
          · rw [if_pos hf]; exact h
          · rw [if_neg hf]
            exact ih _ _ _ _ _ (pathExists_setEntry_mono _ h)

theorem resolve_conflict_copy_eq (fs : FS) (s t : String) (b : Bool)
    (h : pathExists fs t = true) :
    resolve_conflict fs s t "copy" b = some (generate_copy_name fs t) := by
  unfold resolve_conflict
  rw [h]
  rw [if_neg (by simp), if_neg (by decide), if_neg (by decide), if_pos rfl]

/-! ## Claim theorem for the folder merger -/

/-- Claim C6: (a) during a merge, a nested file whose counterpart exists in
the target directory is always copied to the fresh `generate_copy_name`
sibling — exactly the path the Copy policy's `resolve_conflict` would pick,
regardless of any outer conflict-policy choice (`merge_folders` takes no
policy input at all) — leaving the existing target file in place; and
(b) any failure anywhere inside the merge recursion propagates to the
caller while no path that existed before (or was created during) the merge
is ever removed: the merger performs no rollback of partial work. -/
theorem C6_merge_copy_behavior_and_propagation :
    (∀ (faults : Faults) (fuel : Nat) (st : MSt) (src tgt name : String)
        (rest : List String),
      isDir st.fs (joinPath src name) = false →
      pathExists st.fs (joinPath tgt name) = true →
      faults st.opIdx = false →
      resolve_conflict st.fs (joinPath src name) (joinPath tgt name) "copy" false
        = some (generate_copy_name st.fs (joinPath tgt name)) ∧
      pathExists st.fs (generate_copy_name st.fs (joinPath tgt name)) = false ∧
      ¬ generate_copy_name st.fs (joinPath tgt name) = joinPath tgt name ∧
      mergeGo faults (fuel + 1) st src tgt (name :: rest)
        = mergeGo faults fuel
            ⟨setEntry st.fs (generate_copy_name st.fs (joinPath tgt name)) EKind.file,
              st.opIdx + 1⟩ src tgt rest) ∧
    (∀ (faults : Faults) (fuel : Nat) (st : MSt) (src tgt : String)
        (items : List String) (q : String),
      pathExists st.fs q = true →
      pathExists (mergeGo faults fuel st src tgt items).1.fs q = true) := by
  constructor
  · intro faults fuel st src tgt name rest hfile htgt hfault
    have hfresh := generate_copy_name_fresh st.fs (joinPath tgt name)
    refine ⟨resolve_conflict_copy_eq _ _ _ _ htgt, hfresh, ?_, ?_⟩
    · intro habs
      rw [habs, htgt] at hfresh
      exact absurd hfresh (by simp)
    · show (if isDir st.fs (joinPath src name) = true then _ else _) = _
      rw [if_neg (by simp [hfile]), if_neg (by simp [htgt]), if_neg (by simp [hfault])]
  · exact mergeGo_mono

/-- Filesystem for the C6 witness: source directory `s` holds `a.txt`,
whose counterpart already exists under target `t`. -/
def mfsW : FS :=
  [("s", EKind.dir), ("s/a.txt", EKind.file), ("t", EKind.dir), ("t/a.txt", EKind.file)]

/-- Witness for `C6_merge_copy_behavior_and_propagation` on a concrete
one-item merge with a conflicting file. -/
theorem C6_witness :
    (isDir mfsW (joinPath "s" "a.txt") = false ∧
      pathExists mfsW (joinPath "t" "a.txt") = true ∧
      (fun _ : Nat => false) (⟨mfsW, 0⟩ : MSt).opIdx = false ∧
      resolve_conflict mfsW (joinPath "s" "a.txt") (joinPath "t" "a.txt") "copy" false
        = some (generate_copy_name mfsW (joinPath "t" "a.txt")) ∧
      pathExists mfsW (generate_copy_name mfsW (joinPath "t" "a.txt")) = false ∧
      ¬ generate_copy_name mfsW (joinPath "t" "a.txt") = joinPath "t" "a.txt" ∧
      mergeGo (fun _ => false) 2 ⟨mfsW, 0⟩ "s" "t" ["a.txt"]
        = mergeGo (fun _ => false) 1
            ⟨setEntry mfsW (generate_copy_name mfsW (joinPath "t" "a.txt")) EKind.file, 1⟩
            "s" "t" []) ∧
    pathExists (mergeGo (fun _ => false) 2 ⟨mfsW, 0⟩ "s" "t" ["a.txt"]).1.fs "t/a.txt"
      = true :=
  ⟨⟨by decide, by decide, by decide,
      (C6_merge_copy_behavior_and_propagation.1 (fun _ => false) 1 ⟨mfsW, 0⟩ "s" "t"
        "a.txt" [] (by decide) (by decide) (by decide)).1,
      (C6_merge_copy_behavior_and_propagation.1 (fun _ => false) 1 ⟨mfsW, 0⟩ "s" "t"
        "a.txt" [] (by decide) (by decide) (by decide)).2.1,
      (C6_merge_copy_behavior_and_propagation.1 (fun _ => false) 1 ⟨mfsW, 0⟩ "s" "t"
        "a.txt" [] (by decide) (by decide) (by decide)).2.2.1,
      (C6_merge_copy_behavior_and_propagation.1 (fun _ => false) 1 ⟨mfsW, 0⟩ "s" "t"
        "a.txt" [] (by decide) (by decide) (by decide)).2.2.2⟩,
    C6_merge_copy_behavior_and_propagation.2 (fun _ => false) 2 ⟨mfsW, 0⟩ "s" "t"
      ["a.txt"] "t/a.txt" (by decide)⟩

end Pyzard
